import Mathlib

/-!
Verification development for the pinga per-target monitoring engine
(src/main.rs).  The embedding below translates the engine parts of the
program: the probe outcome type, the per-window state, the tick/probe
decision inside `PingApp::update`, the scanning toggle, the
group/rename/address mutations, the plot-building history segmenter,
and the `do_ping` resolution/probe pipeline.

Modelling conventions: instants and durations are natural numbers of
milliseconds; `f64` latencies-in-seconds are rationals; external network
effects (`dns_lookup::lookup_host`, `surge_ping::ping`) are oracle
parameters; a Rust panic (`unreachable!`) is `Option.none`.
-/

/-- Probe outcome, `enum Pong` (main.rs lines 17-21).  The latency of a
successful probe is a duration, modelled in milliseconds. -/
inductive Pong where
  | Success (latency : Nat)
  | Failure
deriving DecidableEq, Repr

namespace Pong

/-- Grouping key used by the plot code (main.rs lines 262-265):
`Failure => false, Success(_) => true`. -/
def isSuccess : Pong → Bool
  | .Success _ => true
  | .Failure => false

end Pong

/-- Per-target window state, `struct PingWindow` (main.rs lines 23-57),
restricted to the fields the program reads or writes outside of pure
widget geometry (`origin`, `ctime` and `open` only drive window identity
and placement).  `success` is the derived current status; `history` is
the probe log; `lastPing` is the instant of the last issued probe. -/
structure PingWindow where
  hostname : String
  address : String
  group : Nat
  scratchpad : String
  scanning : Bool
  showPlot : Bool
  showScratchpad : Bool
  success : Option Bool
  history : List (Nat × Pong)
  lastPing : Nat
deriving DecidableEq, Repr

/-- Constructor `PingWindow::empty` (main.rs lines 60-76); `now` stands
for `Instant::now()`. -/
def PingWindow.empty (now : Nat) : PingWindow :=
  { hostname := "localhost (v4)"
    address := "127.0.0.1"
    group := 0
    scratchpad := ""
    scanning := false
    showPlot := false
    showScratchpad := false
    success := none
    history := []
    lastPing := now }

/-- Constructor `PingWindow::new` (main.rs lines 78-98). -/
def PingWindow.new (hostname address : String) (now : Nat) : PingWindow :=
  { hostname := hostname
    address := address
    group := 0
    scratchpad := ""
    scanning := false
    showPlot := false
    showScratchpad := false
    success := none
    history := []
    lastPing := now }

/-- Probe decision of one tick (main.rs lines 153-155): scanning, and
either no probe has ever completed or more than one second has elapsed
since the last probe.  `elapsed` models `win.last_ping.elapsed()` in
milliseconds; the source compares against `Duration::from_secs(1)`. -/
def shouldProbe (w : PingWindow) (elapsed : Nat) : Bool :=
  w.scanning && (w.success.isNone || decide (1000 < elapsed))

/-- One tick of the per-window update loop (main.rs lines 152-166).
When the probe guard holds, the outcome `pong` (produced by `do_ping`)
is recorded: `last_ping` is reset, `(now, pong)` is appended to the
history, and `success` becomes `Some(true)` or `Some(false)` by the
match on lines 162-165.  Otherwise the window is untouched. -/
def tick (w : PingWindow) (now elapsed : Nat) (pong : Pong) : PingWindow :=
  if shouldProbe w elapsed then
    { w with
      lastPing := now
      history := w.history ++ [(now, pong)]
      success := match pong with
        | .Success _ => some true
        | .Failure => some false }
  else w

/-- Click on the scanning toggle (main.rs lines 227-229):
`toggle_value` flips `win.scanning`, and the click handler sets
`win.success = None` unconditionally, in both directions. -/
def toggleScanning (w : PingWindow) : PingWindow :=
  { w with scanning := !w.scanning, success := none }

/-- Click on a group color button (main.rs lines 241-243):
`win.group = idx`, where `idx` is produced by enumerating `GROUPS`. -/
def setGroup (w : PingWindow) (idx : Nat) : PingWindow :=
  { w with group := idx }

/-- Edit of the hostname text field (main.rs lines 211-215, 247). -/
def rename (w : PingWindow) (name : String) : PingWindow :=
  { w with hostname := name }

/-- Edit of the address text field (main.rs lines 219-223, 249). -/
def setAddress (w : PingWindow) (addr : String) : PingWindow :=
  { w with address := addr }

/-- Click on the plot toggle (main.rs line 231). -/
def toggleShowPlot (w : PingWindow) : PingWindow :=
  { w with showPlot := !w.showPlot }

/-- Click on the scratchpad toggle (main.rs line 232). -/
def toggleShowScratchpad (w : PingWindow) : PingWindow :=
  { w with showScratchpad := !w.showScratchpad }

/-- Edit of the scratchpad text field (main.rs lines 330-336). -/
def setScratchpad (w : PingWindow) (s : String) : PingWindow :=
  { w with scratchpad := s }

/-- Color constants `GROUPS` (main.rs lines 130-136), as RGB triples.
The unguarded indexing `GROUPS[win.group]` on line 196 requires
`win.group < GROUPS.length`. -/
def GROUPS : List (Nat × Nat × Nat) :=
  [(0x1B, 0x1B, 0x1B), (0x4A, 0x42, 0x25), (0x25, 0x4A, 0x30),
   (0x25, 0x2D, 0x4A), (0x4A, 0x25, 0x3F)]

/-- Plot window size `PLOT_LEN` (main.rs line 124). -/
def PLOT_LEN : Nat := 20

/-- The probing pipeline `do_ping` (main.rs lines 355-374).  `lookup`
is the oracle outcome of `dns_lookup::lookup_host`: `none` models a
lookup error, `some ips` the resolved address list (addresses
abstract).  `ping ip` is the oracle outcome of `surge_ping::ping`:
`some latency` models `Ok((_, duration))`, `none` models `Err(_)`
(timeout or transport error).  Every failure path folds into
`Pong.Failure`; the function is total, so no error is raised. -/
def do_ping (lookup : Option (List Nat)) (ping : Nat → Option Nat) : Pong :=
  match lookup with
  | none => Pong.Failure
  | some ips =>
    match ips.head? with
    | none => Pong.Failure
    | some ip =>
      match ping ip with
      | some duration => Pong.Success duration
      | none => Pong.Failure

/-- Adjacent grouping by a Boolean key: `Itertools::group_by`
specialised to the plot code (main.rs lines 261-266).  Maximal runs of
consecutive elements sharing a key, each run tagged with that key,
emitted in order. -/
def chunkBy {α : Type} (key : α → Bool) : List α → List (Bool × List α)
  | [] => []
  | a :: as =>
    match chunkBy key as with
    | [] => [(key a, [a])]
    | (k, g) :: rest =>
      if key a = k then (k, a :: g) :: rest
      else (key a, [a]) :: (k, g) :: rest

/-- Conversion of one windowed history entry to a plot sample
(main.rs lines 275-283): the x coordinate is the position within the
window, the y coordinate is `duration.as_secs_f64()`.  The `Failure`
branch is `unreachable!` in the source; it is modelled as `none`
(a panic).  An entry is `(position, (timestamp, outcome))`. -/
def plotSample (e : Nat × Nat × Pong) : Option (ℚ × ℚ) :=
  match e.2.2 with
  | .Failure => none
  | .Success duration => some ((e.1 : ℚ), (duration : ℚ) / 1000)

/-- Traversal of a list with a fallible conversion, where `none`
models a panic aborting the whole computation. -/
def mapPanic {α β : Type} (f : α → Option β) : List α → Option (List β)
  | [] => some []
  | a :: as =>
    match f a, mapPanic f as with
    | some b, some bs => some (b :: bs)
    | _, _ => none

/-- The groups the plot code keeps (main.rs lines 258-273): the last
`window` entries of the history, positions attached, grouped into
maximal runs by success, failure runs skipped by the
`if !success { continue; }` test. -/
def keptGroups (history : List (Nat × Pong)) (window : Nat) :
    List (Bool × List (Nat × Nat × Pong)) :=
  let base := history.length - window
  let win := (history.drop base).enum
  (chunkBy (fun e => e.2.2.isSuccess) win).filter (fun g => g.1)

/-- The history segmenter (plot-building code, main.rs lines 258-288):
every kept run is converted entry-by-entry into plot samples.  The
result is `none` exactly when the `unreachable!` branch would fire. -/
def historySegments (history : List (Nat × Pong)) (window : Nat) :
    Option (List (List (ℚ × ℚ))) :=
  mapPanic (fun g => mapPanic plotSample g.2) (keptGroups history window)

/-- Window states reachable through the engine operations of
`PingApp::update`: windows are created by `PingWindow::empty` (double
click, line 148) or `PingWindow::new` (the defaults, lines 114-118),
and mutated by ticks, the scanning toggle, the group buttons — whose
index is always an index into `GROUPS` (line 237) — the text fields and
the display toggles. -/
inductive ReachableWindow : PingWindow → Prop where
  | mk_empty (now : Nat) : ReachableWindow (PingWindow.empty now)
  | mk_new (h a : String) (now : Nat) : ReachableWindow (PingWindow.new h a now)
  | step_tick {w : PingWindow} (now elapsed : Nat) (pong : Pong) :
      ReachableWindow w → ReachableWindow (tick w now elapsed pong)
  | step_toggle {w : PingWindow} :
      ReachableWindow w → ReachableWindow (toggleScanning w)
  | step_group {w : PingWindow} (idx : Nat) :
      idx < GROUPS.length → ReachableWindow w → ReachableWindow (setGroup w idx)
  | step_rename {w : PingWindow} (s : String) :
      ReachableWindow w → ReachableWindow (rename w s)
  | step_addr {w : PingWindow} (s : String) :
      ReachableWindow w → ReachableWindow (setAddress w s)
  | step_plot {w : PingWindow} :
      ReachableWindow w → ReachableWindow (toggleShowPlot w)
  | step_scratch {w : PingWindow} :
      ReachableWindow w → ReachableWindow (toggleShowScratchpad w)
  | step_pad {w : PingWindow} (s : String) :
      ReachableWindow w → ReachableWindow (setScratchpad w s)

/-! ## Concrete windows and histories used by the witnesses below -/

/-- Window in scanning state with a recorded successful probe. -/
def wScanTrue : PingWindow :=
  { hostname := "target"
    address := "10.0.0.1"
    group := 0
    scratchpad := ""
    scanning := true
    showPlot := false
    showScratchpad := false
    success := some true
    history := [(0, Pong.Success 10)]
    lastPing := 0 }

/-- Idle window that retains a stale failure status. -/
def wIdleStale : PingWindow :=
  { hostname := "target"
    address := "10.0.0.1"
    group := 0
    scratchpad := ""
    scanning := false
    showPlot := false
    showScratchpad := false
    success := some false
    history := [(0, Pong.Failure)]
    lastPing := 0 }

/-- Window in scanning state before its first completed probe. -/
def wFirstTick : PingWindow :=
  { hostname := "target"
    address := "10.0.0.1"
    group := 0
    scratchpad := ""
    scanning := true
    showPlot := false
    showScratchpad := false
    success := none
    history := []
    lastPing := 0 }

/-- The reference history of the segmenter scenario: success 10ms,
failure, success 20ms, success 30ms. -/
def exampleHistory : List (Nat × Pong) :=
  [(0, Pong.Success 10), (1, Pong.Failure), (2, Pong.Success 20), (3, Pong.Success 30)]

/-! ## Helper lemmas about `chunkBy` and `mapPanic` -/

/-- Every element of a group produced by `chunkBy` carries the key of
its group tag. -/
theorem chunkBy_mem_key {α : Type} {key : α → Bool} :
    ∀ {l : List α} {k : Bool} {g : List α},
      (k, g) ∈ chunkBy key l → ∀ b ∈ g, key b = k := by
  intro l
  induction l with
  | nil => intro k g hg; simp [chunkBy] at hg
  | cons a as ih =>
    intro k g hg
    rw [chunkBy] at hg
    cases hr : chunkBy key as with
    | nil =>
      rw [hr] at hg
      simp at hg
      obtain ⟨hk, hgl⟩ := hg
      subst hk; subst hgl
      simp
    | cons p rest =>
      obtain ⟨k0, g0⟩ := p
      rw [hr] at hg
      dsimp only at hg
      by_cases hkey : key a = k0
      · rw [if_pos hkey] at hg
        rcases List.mem_cons.mp hg with heq | hmem
        · have hk : k = k0 := congrArg Prod.fst heq
          have hgl : g = a :: g0 := congrArg Prod.snd heq
          subst hk; subst hgl
          intro b hb
          rcases List.mem_cons.mp hb with rfl | hb
          · exact hkey
          · exact ih (by rw [hr]; exact List.mem_cons_self _ _) b hb
        · exact ih (by rw [hr]; exact List.mem_cons_of_mem _ hmem)
      · rw [if_neg hkey] at hg
        rcases List.mem_cons.mp hg with heq | hmem
        · have hk : k = key a := congrArg Prod.fst heq
          have hgl : g = [a] := congrArg Prod.snd heq
          subst hk; subst hgl
          intro b hb
          rcases List.mem_singleton.mp hb with rfl
          rfl
        · exact ih (by rw [hr]; exact hmem)

/-- Filtering tagged groups keeps a true-tagged head. -/
theorem filter_fst_true_cons {α : Type} (x : List α) (gs : List (Bool × List α)) :
    List.filter (fun g => g.1) ((true, x) :: gs)
      = (true, x) :: List.filter (fun g => g.1) gs := rfl

/-- Filtering tagged groups drops a false-tagged head. -/
theorem filter_fst_false_cons {α : Type} (x : List α) (gs : List (Bool × List α)) :
    List.filter (fun g => g.1) ((false, x) :: gs)
      = List.filter (fun g => g.1) gs := rfl

/-- Flattening the members of the true-tagged groups of `chunkBy`
recovers exactly the elements whose key is true, in order. -/
theorem chunkBy_filter_flatten {α : Type} {key : α → Bool} (l : List α) :
    (((chunkBy key l).filter (fun g => g.1)).map (fun g => g.2)).flatten
      = l.filter key := by
  induction l with
  | nil => rfl
  | cons a as ih =>
    rw [chunkBy]
    cases hr : chunkBy key as with
    | nil =>
      rw [hr] at ih
      simp only [List.filter_nil, List.map_nil, List.flatten_nil] at ih
      by_cases hk : key a
      · simp [List.filter_cons, hk, ← ih]
      · simp [List.filter_cons, hk, ← ih]
    | cons p rest =>
      obtain ⟨k0, g0⟩ := p
      rw [hr] at ih
      dsimp only
      have hT : ∀ (x : List α) (gs : List (Bool × List α)),
          List.filter (fun g => g.1) ((true, x) :: gs)
            = (true, x) :: List.filter (fun g => g.1) gs := fun _ _ => rfl
      have hF : ∀ (x : List α) (gs : List (Bool × List α)),
          List.filter (fun g => g.1) ((false, x) :: gs)
            = List.filter (fun g => g.1) gs := fun _ _ => rfl
      by_cases hkey : key a = k0
      · rw [if_pos hkey]
        subst hkey
        cases hka : key a with
        | true =>
          rw [hka] at ih
          rw [hT, List.map_cons, List.flatten_cons] at ih
          rw [hT, List.map_cons, List.flatten_cons, List.filter_cons, hka,
            if_pos rfl, ← ih]
          simp
        | false =>
          rw [hka] at ih
          rw [hF] at ih
          rw [hF, List.filter_cons, hka]
          simpa using ih
      · rw [if_neg hkey]
        cases hka : key a with
        | true =>
          have hk0 : k0 = false := by
            cases k0 with
            | true => exact absurd hka hkey
            | false => rfl
          subst hk0
          rw [hF] at ih
          rw [hT, hF, List.map_cons, List.flatten_cons, List.filter_cons, hka,
            if_pos rfl, ← ih]
          simp
        | false =>
          have hk0 : k0 = true := by
            cases k0 with
            | true => rfl
            | false => exact absurd hka hkey
          subst hk0
          rw [hT, List.map_cons, List.flatten_cons] at ih
          rw [hF, hT, List.map_cons, List.flatten_cons, List.filter_cons, hka]
          simpa using ih

/-- When all keys are false, `chunkBy` produces no true-tagged group. -/
theorem chunkBy_filter_nil {α : Type} {key : α → Bool} {l : List α}
    (h : ∀ a ∈ l, key a = false) :
    (chunkBy key l).filter (fun g => g.1) = [] := by
  induction l with
  | nil => rfl
  | cons a as ih =>
    have ha : key a = false := h a (List.mem_cons_self a as)
    have has : ∀ x ∈ as, key x = false := fun x hx => h x (List.mem_cons_of_mem a hx)
    rw [chunkBy]
    cases hr : chunkBy key as with
    | nil =>
      dsimp only
      rw [ha]
      rfl
    | cons p rest =>
      obtain ⟨k0, g0⟩ := p
      dsimp only
      rw [hr] at ih
      have ihh := ih has
      by_cases hkey : key a = k0
      · rw [if_pos hkey]
        have hk0 : k0 = false := hkey ▸ ha
        subst hk0
        rw [filter_fst_false_cons] at ihh ⊢
        exact ihh
      · rw [if_neg hkey]
        have hk0 : k0 = true := by
          cases hk : k0 with
          | true => rfl
          | false => exact absurd (ha.trans hk.symm) hkey
        subst hk0
        rw [filter_fst_true_cons] at ihh
        exact absurd ihh (List.cons_ne_nil _ _)

/-- A panicking traversal over a list on which the conversion always
yields a value returns a value. -/
theorem mapPanic_eq_some {α β : Type} {f : α → Option β} {l : List α}
    (h : ∀ a ∈ l, (f a).isSome = true) : ∃ bs, mapPanic f l = some bs := by
  induction l with
  | nil => exact ⟨[], rfl⟩
  | cons a as ih =>
    obtain ⟨b, hb⟩ := Option.isSome_iff_exists.mp (h a (List.mem_cons_self a as))
    obtain ⟨bs, hbs⟩ := ih (fun x hx => h x (List.mem_cons_of_mem a hx))
    exact ⟨b :: bs, by rw [mapPanic, hb, hbs]⟩

/-- A panicking traversal distributes over append. -/
theorem mapPanic_append {α β : Type} {f : α → Option β} {l1 l2 : List α}
    {b1 b2 : List β} (h1 : mapPanic f l1 = some b1) (h2 : mapPanic f l2 = some b2) :
    mapPanic f (l1 ++ l2) = some (b1 ++ b2) := by
  induction l1 generalizing b1 with
  | nil =>
    rw [mapPanic] at h1
    obtain rfl : b1 = [] := by injection h1 with h; exact h.symm
    simpa using h2
  | cons a as ih =>
    rw [mapPanic] at h1
    cases hfa : f a with
    | none => rw [hfa] at h1; simp at h1
    | some b =>
      rw [hfa] at h1
      cases has : mapPanic f as with
      | none => rw [has] at h1; simp at h1
      | some bs =>
        rw [has] at h1
        obtain rfl : b1 = b :: bs := by injection h1 with h; exact h.symm
        rw [List.cons_append, mapPanic, hfa, ih has]
        rfl

/-- A panicking traversal after a pure projection is a traversal of the
projected list. -/
theorem mapPanic_comp {α β γ : Type} (f : β → Option γ) (p : α → β) (l : List α) :
    mapPanic (fun a => f (p a)) l = mapPanic f (l.map p) := by
  induction l with
  | nil => rfl
  | cons a as ih => rw [List.map_cons, mapPanic, mapPanic, ih]

/-- A nested panicking traversal flattens: traversing every group and
flattening the results equals traversing the flattened groups. -/
theorem mapPanic_flatten {α β : Type} {f : α → Option β} {gs : List (List α)}
    {runs : List (List β)} (h : mapPanic (fun g => mapPanic f g) gs = some runs) :
    mapPanic f gs.flatten = some runs.flatten := by
  induction gs generalizing runs with
  | nil =>
    rw [mapPanic] at h
    obtain rfl : runs = [] := by injection h with h; exact h.symm
    rfl
  | cons g gs ih =>
    rw [mapPanic] at h
    cases hg : mapPanic f g with
    | none => rw [hg] at h; simp at h
    | some bs =>
      rw [hg] at h
      cases hgs : mapPanic (fun g => mapPanic f g) gs with
      | none => rw [hgs] at h; simp at h
      | some rs =>
        rw [hgs] at h
        obtain rfl : runs = bs :: rs := by injection h with h; exact h.symm
        rw [List.flatten_cons, List.flatten_cons]
        exact mapPanic_append hg (ih hgs)

/-- Conversion of a successful entry to a plot sample never panics. -/
theorem plotSample_of_success (e : Nat × Nat × Pong) (he : e.2.2.isSuccess = true) :
    (plotSample e).isSome = true := by
  cases hp : e.2.2 with
  | Success d => simp [plotSample, hp]
  | Failure =>
    rw [hp] at he
    exact absurd he (by simp [Pong.isSuccess])

/-- Every entry of every group the plot code keeps is a success. -/
theorem keptGroups_all_success (history : List (Nat × Pong)) (window : Nat) :
    ∀ g ∈ keptGroups history window, ∀ e ∈ g.2, e.2.2.isSuccess = true := by
  intro g hg e he
  rw [keptGroups] at hg
  have hmem := List.mem_filter.mp hg
  have htrue : g.1 = true := by simpa using hmem.2
  have hpair : (g.1, g.2) ∈ chunkBy (fun e => e.2.2.isSuccess)
      ((history.drop (history.length - window)).enum) := by
    rw [Prod.mk.eta]
    exact hmem.1
  have := chunkBy_mem_key hpair e he
  rw [htrue] at this
  exact this

/-- Membership in an enumeration projects to membership in the list. -/
theorem mem_of_mem_enumFrom {α : Type} :
    ∀ {l : List α} {n : Nat} {e : Nat × α}, e ∈ l.enumFrom n → e.2 ∈ l := by
  intro l
  induction l with
  | nil => intro n e he; simp [List.enumFrom] at he
  | cons a as ih =>
    intro n e he
    rw [List.enumFrom] at he
    rcases List.mem_cons.mp he with rfl | he
    · exact List.mem_cons_self _ _
    · exact List.mem_cons_of_mem _ (ih he)

/-- The group field survives a tick unchanged. -/
theorem tick_group (w : PingWindow) (now elapsed : Nat) (pong : Pong) :
    (tick w now elapsed pong).group = w.group := by
  rw [tick.eq_def]
  by_cases hp : shouldProbe w elapsed = true
  · rw [if_pos hp]
  · rw [if_neg hp]

/-! ## Claims -/

/-- C1: a tick issues a probe — appends exactly one entry to the
history — if and only if the window is scanning and either no probe has
ever completed (`success = none`) or more than one second has elapsed
since the last probe; with scanning on and no completed probe the first
tick probes immediately, and with scanning off a tick changes nothing. -/
theorem tick_probes_iff (w : PingWindow) (now elapsed : Nat) (pong : Pong) :
    (w.scanning = true →
      ((tick w now elapsed pong).history = w.history ++ [(now, pong)] ↔
        (w.success = none ∨ 1000 < elapsed))) ∧
    (w.scanning = true → w.success = none →
      (tick w now elapsed pong).history = w.history ++ [(now, pong)]) ∧
    (w.scanning = false → tick w now elapsed pong = w) := by
  refine ⟨?_, ?_, ?_⟩
  · intro hs
    constructor
    · intro hh
      by_cases hp : shouldProbe w elapsed = true
      · rw [shouldProbe, hs] at hp
        simp at hp
        rcases hp with h | h
        · exact Or.inl h
        · exact Or.inr h
      · rw [tick.eq_def, if_neg hp] at hh
        exact absurd hh.symm (by simp)
    · intro hcond
      have hp : shouldProbe w elapsed = true := by
        rw [shouldProbe, hs]
        simp
        rcases hcond with h | h
        · exact Or.inl (by simp [h])
        · exact Or.inr h
      rw [tick.eq_def, if_pos hp]
  · intro hs hnone
    have hp : shouldProbe w elapsed = true := by
      rw [shouldProbe, hs, hnone]
      rfl
    rw [tick.eq_def, if_pos hp]
  · intro hs
    have hp : ¬ shouldProbe w elapsed = true := by
      rw [shouldProbe, hs]
      simp
    rw [tick.eq_def, if_neg hp]

/-- C1 witness: a scanning window with no completed probe records a
probe on its very first tick. -/
theorem tick_probes_iff_witness :
    (tick wFirstTick 7 0 (Pong.Success 10)).history
      = wFirstTick.history ++ [(7, Pong.Success 10)] :=
  (tick_probes_iff wFirstTick 7 0 (Pong.Success 10)).2.1 rfl rfl

/-- C2 counterexample: toggling scanning from true to false does not
leave `success` unchanged — the click handler (main.rs line 228) clears
it to `none`, here from `some true`. -/
theorem toggle_off_keeps_status_counterexample :
    wScanTrue.scanning = true ∧
    (toggleScanning wScanTrue).scanning = false ∧
    ¬ (toggleScanning wScanTrue).success = wScanTrue.success := by
  refine ⟨rfl, rfl, ?_⟩
  decide

/-- C2 amended: toggling scanning from true to false turns scanning off
and resets `success` to `none` (the handler clears it on every click,
in both directions); the history is retained. -/
theorem toggleScanning_off (w : PingWindow) (h : w.scanning = true) :
    (toggleScanning w).scanning = false ∧
    (toggleScanning w).success = none ∧
    (toggleScanning w).history = w.history := by
  refine ⟨?_, rfl, rfl⟩
  rw [toggleScanning]
  simp [h]

/-- C2 witness: the amended toggle-off behaviour at a concrete scanning
window with a recorded status. -/
theorem toggleScanning_off_witness :
    (toggleScanning wScanTrue).scanning = false ∧
    (toggleScanning wScanTrue).success = none ∧
    (toggleScanning wScanTrue).history = wScanTrue.history :=
  toggleScanning_off wScanTrue rfl

/-- C3: toggling scanning from false to true always resets `success`
to `none`, for every window and regardless of the prior status. -/
theorem toggleScanning_on (w : PingWindow) (h : w.scanning = false) :
    (toggleScanning w).scanning = true ∧ (toggleScanning w).success = none := by
  refine ⟨?_, rfl⟩
  rw [toggleScanning]
  simp [h]

/-- C3 witness: turning scanning on clears a stale `some false`. -/
theorem toggleScanning_on_witness :
    (toggleScanning wIdleStale).scanning = true ∧
    (toggleScanning wIdleStale).success = none :=
  toggleScanning_on wIdleStale rfl

/-- C4: on the history success-10ms, failure, success-20ms,
success-30ms with window 4, the segmenter returns exactly the two runs
`[(0, 0.010)]` and `[(2, 0.020), (3, 0.030)]`, positions within the
window and latencies in seconds. -/
theorem historySegments_example :
    historySegments exampleHistory 4 =
      some [[((0 : ℚ), (1 : ℚ)/100)], [((2 : ℚ), (1 : ℚ)/50), ((3 : ℚ), (3 : ℚ)/100)]] := by
  norm_num [exampleHistory, historySegments, keptGroups, chunkBy, plotSample,
    mapPanic, List.enum, Pong.isSuccess]

/-- C5: for every history and window, every entry of every run the
segmenter keeps is a success, and consequently the `unreachable!`
failure branch (modelled as `none`) never executes: the segmenter
always returns a value. -/
theorem historySegments_never_fails (history : List (Nat × Pong)) (window : Nat) :
    (∀ g ∈ keptGroups history window, ∀ e ∈ g.2, e.2.2.isSuccess = true) ∧
    (historySegments history window).isSome = true := by
  refine ⟨keptGroups_all_success history window, ?_⟩
  rw [historySegments]
  have hall : ∀ g ∈ keptGroups history window,
      ((fun g => mapPanic plotSample g.2) g).isSome = true := by
    intro g hg
    obtain ⟨bs, hbs⟩ := mapPanic_eq_some
      (fun e he => plotSample_of_success e (keptGroups_all_success history window g hg e he))
    show (mapPanic plotSample g.2).isSome = true
    rw [hbs]
    rfl
  obtain ⟨runs, hruns⟩ := mapPanic_eq_some hall
  rw [hruns]
  rfl

/-- C5 witness: the segmenter returns a value on a history containing a
failure. -/
theorem historySegments_never_fails_witness :
    (historySegments [(0, Pong.Success 10), (1, Pong.Failure)] 4).isSome = true :=
  (historySegments_never_fails [(0, Pong.Success 10), (1, Pong.Failure)] 4).2

/-- C6: concatenating the entries of all emitted runs, in emission
order, yields exactly the samples of the success entries of the
windowed history in chronological order — the strong form of being a
subsequence of those entries. -/
theorem historySegments_flatten_subseq (history : List (Nat × Pong)) (window : Nat)
    (runs : List (List (ℚ × ℚ))) (h : historySegments history window = some runs) :
    mapPanic plotSample
        (((history.drop (history.length - window)).enum).filter
          (fun e => e.2.2.isSuccess)) = some runs.flatten := by
  rw [historySegments, keptGroups] at h
  have h1 := (mapPanic_comp (mapPanic plotSample)
    (fun g : Bool × List (Nat × Nat × Pong) => g.2)
    (List.filter (fun g => g.1)
      (chunkBy (fun e => e.2.2.isSuccess)
        ((history.drop (history.length - window)).enum)))).symm.trans h
  have h2 := mapPanic_flatten h1
  rw [chunkBy_filter_flatten] at h2
  exact h2

/-- C6 witness: the flattened runs of the reference history equal the
samples of its success entries. -/
theorem historySegments_flatten_subseq_witness :
    mapPanic plotSample
        (((exampleHistory.drop (exampleHistory.length - 4)).enum).filter
          (fun e => e.2.2.isSuccess))
      = some [[((0 : ℚ), (1 : ℚ)/100)],
              [((2 : ℚ), (1 : ℚ)/50), ((3 : ℚ), (3 : ℚ)/100)]].flatten :=
  historySegments_flatten_subseq exampleHistory 4
    [[((0 : ℚ), (1 : ℚ)/100)], [((2 : ℚ), (1 : ℚ)/50), ((3 : ℚ), (3 : ℚ)/100)]]
    (by norm_num [exampleHistory, historySegments, keptGroups, chunkBy, plotSample,
      mapPanic, List.enum, Pong.isSuccess])

/-- C7: the segmenter returns no runs on an empty history (for any
window), and no runs when every entry of the windowed history is a
failure. -/
theorem historySegments_empty_and_failures :
    (∀ window, historySegments [] window = some []) ∧
    (∀ (history : List (Nat × Pong)) (window : Nat),
      (∀ e ∈ history.drop (history.length - window), e.2 = Pong.Failure) →
      historySegments history window = some []) := by
  constructor
  · intro window
    simp [historySegments, keptGroups, chunkBy, mapPanic]
  · intro history window hfail
    rw [historySegments, keptGroups]
    have hkept : (chunkBy (fun e => e.2.2.isSuccess)
        ((history.drop (history.length - window)).enum)).filter (fun g => g.1) = [] := by
      apply chunkBy_filter_nil
      intro e he
      have hmem : e.2 ∈ history.drop (history.length - window) :=
        mem_of_mem_enumFrom (by simpa [List.enum] using he)
      rw [hfail e.2 hmem]
      rfl
    rw [hkept]
    rfl

/-- C7 witness: empty history with window 20, and an all-failure
history with window 2, both yield no runs. -/
theorem historySegments_empty_and_failures_witness :
    historySegments [] 20 = some [] ∧
    historySegments [(0, Pong.Failure), (1, Pong.Failure)] 2 = some [] := by
  refine ⟨historySegments_empty_and_failures.1 20,
    historySegments_empty_and_failures.2 [(0, Pong.Failure), (1, Pong.Failure)] 2 ?_⟩
  decide

/-- C8: every failure on the probe path — a lookup error, a lookup
returning zero addresses, or a probe timeout/transport error — makes
`do_ping` return the single value `Pong.Failure`, and a tick recording
it appends `(now, Failure)` to the history and sets `success` to
`some false`; `do_ping` is total, so no process-level error arises. -/
theorem do_ping_failure_path (lookup : Option (List Nat)) (ping : Nat → Option Nat)
    (hfail : lookup = none ∨ lookup = some [] ∨
      (∃ ips ip, lookup = some ips ∧ ips.head? = some ip ∧ ping ip = none))
    (w : PingWindow) (now elapsed : Nat)
    (hp : shouldProbe w elapsed = true) :
    do_ping lookup ping = Pong.Failure ∧
    (tick w now elapsed (do_ping lookup ping)).history
      = w.history ++ [(now, Pong.Failure)] ∧
    (tick w now elapsed (do_ping lookup ping)).success = some false := by
  have hdp : do_ping lookup ping = Pong.Failure := by
    rcases hfail with rfl | rfl | ⟨ips, ip, rfl, hhead, hping⟩
    · rfl
    · rfl
    · rw [do_ping, hhead]
      dsimp only
      rw [hping]
  refine ⟨hdp, ?_, ?_⟩
  · rw [hdp, tick.eq_def, if_pos hp]
  · rw [hdp, tick.eq_def, if_pos hp]

/-- C8 witness: a failed lookup on a probing tick records a failure and
sets the status to `some false`. -/
theorem do_ping_failure_path_witness :
    do_ping none (fun _ => none) = Pong.Failure ∧
    (tick wFirstTick 7 0 (do_ping none (fun _ => none))).history
      = wFirstTick.history ++ [(7, Pong.Failure)] ∧
    (tick wFirstTick 7 0 (do_ping none (fun _ => none))).success = some false :=
  do_ping_failure_path none (fun _ => none) (Or.inl rfl) wFirstTick 7 0 (by decide)

/-- C9: a window history is append-only: a tick leaves it unchanged or
appends one entry at the end (the old history is always a prefix of the
new one), every other engine operation leaves it untouched, and a new
window starts with an empty history. -/
theorem history_append_only (w : PingWindow) (now elapsed : Nat) (pong : Pong)
    (name addr pad : String) (idx : Nat) :
    ((tick w now elapsed pong).history = w.history ∨
      (tick w now elapsed pong).history = w.history ++ [(now, pong)]) ∧
    w.history <+: (tick w now elapsed pong).history ∧
    (toggleScanning w).history = w.history ∧
    (setGroup w idx).history = w.history ∧
    (rename w name).history = w.history ∧
    (setAddress w addr).history = w.history ∧
    (toggleShowPlot w).history = w.history ∧
    (toggleShowScratchpad w).history = w.history ∧
    (setScratchpad w pad).history = w.history ∧
    (PingWindow.new name addr now).history = [] ∧
    (PingWindow.empty now).history = [] := by
  refine ⟨?_, ?_, rfl, rfl, rfl, rfl, rfl, rfl, rfl, rfl, rfl⟩
  · rw [tick.eq_def]
    by_cases hp : shouldProbe w elapsed = true
    · rw [if_pos hp]
      exact Or.inr rfl
    · rw [if_neg hp]
      exact Or.inl rfl
  · rw [tick.eq_def]
    by_cases hp : shouldProbe w elapsed = true
    · rw [if_pos hp]
      exact ⟨[(now, pong)], rfl⟩
    · rw [if_neg hp]

/-- C10: in every reachable window state the group field is strictly
below the length of `GROUPS` (which is 5), so the unguarded indexing
`GROUPS[win.group]` never panics: the group starts at 0 and is only
ever assigned an index enumerated from `GROUPS` itself. -/
theorem reachable_group_bound (w : PingWindow) (h : ReachableWindow w) :
    GROUPS.length = 5 ∧ w.group < GROUPS.length := by
  refine ⟨rfl, ?_⟩
  induction h with
  | mk_empty now =>
    show 0 < GROUPS.length
    decide
  | mk_new h a now =>
    show 0 < GROUPS.length
    decide
  | step_tick now elapsed pong _ ih => rw [tick_group]; exact ih
  | step_toggle _ ih => exact ih
  | step_group idx hidx _ _ => exact hidx
  | step_rename s _ ih => exact ih
  | step_addr s _ ih => exact ih
  | step_plot _ ih => exact ih
  | step_scratch _ ih => exact ih
  | step_pad s _ ih => exact ih

/-- C10 witness: a freshly created window satisfies the bound. -/
theorem reachable_group_bound_witness :
    GROUPS.length = 5 ∧ (PingWindow.empty 0).group < GROUPS.length :=
  reachable_group_bound (PingWindow.empty 0) (ReachableWindow.mk_empty 0)
